import Mathlib

/-!
Verification of the ESP32 presence-detection firmware
(`src/test1_esp_working.cpp`).

The program keeps a fixed-size circular buffer of binary radar samples
(`samples`, `windowSize = 100`, write cursor `indexSample`), counts
adjacent-pair transitions over the buffer (`checkBreathing`, split in the
design into `countTransitions` and `isPresent`), maps a raw 12-bit ADC
reading to a CO2 ppm estimate with the Arduino integer `map` helper, and once per
`windowSize * sampleInterval` milliseconds (strict `>` on the wrapped
32-bit clock difference) emits `"HUMAN,"` or `"NO HUMAN,"` followed by the
decimal ppm value and a line terminator.

The embedding below is shallow: the global mutable state of the sketch
becomes an explicit state record, each call of `loop()` becomes the step
function `loopStep` taking the sensor readings of the tick and clock value as
inputs, and each C array access goes through fallible indexing
(`List.get?` / an explicit bounds guard) so that out-of-bounds accesses
surface as a `none` result.
-/

namespace Esp

/-- Size of the circular sample buffer (`const int windowSize = 100`). -/
def windowSize : Nat := 100

/-- Polling delay in milliseconds (`const int sampleInterval = 100`). -/
def sampleInterval : Nat := 100

/-- The circular buffer state: the `samples` array and the write cursor
`indexSample` of the source. -/
structure SampleBuffer where
  samples : List Int
  indexSample : Nat

/-- Buffer state established by `setup()`: all `windowSize` slots set to 1
and the write cursor at 0. -/
def initBuffer : SampleBuffer :=
  ⟨List.replicate windowSize 1, 0⟩

/-- One sample insertion, lines 35-36 of the source:
`samples[indexSample] = radarVal; indexSample = (indexSample + 1) % windowSize;`.
The bounds check for the array write is performed by the caller
(`loopStep`); `List.set` is the in-range write. -/
def insert (b : SampleBuffer) (v : Int) : SampleBuffer :=
  ⟨b.samples.set b.indexSample v, (b.indexSample + 1) % windowSize⟩

/-- Reference count of adjacent differing pairs of a list, used to state
what the scanning loop of `checkBreathing` computes. -/
def adjDiffs : List Int → Nat
  | a :: b :: rest => (if a ≠ b then 1 else 0) + adjDiffs (b :: rest)
  | _ => 0

/-- The scanning loop of `checkBreathing` (lines 26-29):
`for (int i = 1; i < windowSize; i++) { if (samples[i] != prev) transitions++; prev = samples[i]; }`.
The loop bound `windowSize` is the length of the `samples` array, so the
guard is `i < s.length`; each read `samples[i]` is the fallible `s.get? i`
and a failed read yields `none`. `fuel` is only a termination device for
the index-based loop: every call site passes `fuel ≥ s.length - i`, so the
fuel never runs out before the loop guard fails. -/
def checkBreathingLoop (s : List Int) : Nat → Nat → Int → Nat → Option Nat
  | 0, _, _, t => some t
  | fuel + 1, i, prev, t =>
    if i < s.length then
      match s.get? i with
      | some v => checkBreathingLoop s fuel (i + 1) v (if v ≠ prev then t + 1 else t)
      | none => none
    else some t

/-- Transition counting of `checkBreathing` (lines 24-29): read
`prev = samples[0]` (fallible), then run the scanning loop from index 1. -/
def countTransitions (s : List Int) : Option Nat :=
  match s.get? 0 with
  | some p => checkBreathingLoop s s.length 1 p 0
  | none => none

/-- Presence verdict from a transition count, line 30 of the source:
`transitions >= 3 && transitions <= 10`. -/
def isPresent (t : Nat) : Bool :=
  decide (3 ≤ t) && decide (t ≤ 10)

/-- Whole `checkBreathing()` function: transition count fed into the
presence threshold test. -/
def checkBreathing (s : List Int) : Option Bool :=
  (countTransitions s).map isPresent

/-- The Arduino `map` helper as called on line 39; on the ESP32 it computes
`(x - in_min) * (out_max - out_min) / (in_max - in_min) + out_min` with C
integer division, i.e. truncation toward zero, which is `Int.tdiv`. -/
def arduinoMap (x inMin inMax outMin outMax : Int) : Int :=
  Int.tdiv ((x - inMin) * (outMax - outMin)) (inMax - inMin) + outMin

/-- The CO2 scaling of line 39: `map(co2Raw, 0, 4095, 400, 2000)`. -/
def mapCo2 (raw : Int) : Int :=
  arduinoMap raw 0 4095 400 2000

/-- Modulus of the 32-bit unsigned arithmetic of `millis()` and `lastCheck`. -/
def u32 : Nat := 2 ^ 32

/-- Unsigned 32-bit subtraction `a - b` as C computes it on
`unsigned long` operands. -/
def u32sub (a b : Nat) : Nat :=
  (a % u32 + (u32 - b % u32)) % u32

/-- The evaluation gate of line 42: `millis() - lastCheck > windowSize * sampleInterval`,
with the subtraction and comparison performed on 32-bit unsigned values. -/
def evaluationDue (now last period : Nat) : Bool :=
  decide (period % u32 < u32sub now last)

/-- Whole mutable state of the sketch: the sample buffer, the static
`lastCheck` timestamp, the LED level, and the text written to the serial
port so far. -/
structure EspState where
  buffer : SampleBuffer
  lastCheck : Nat
  led : Bool
  serialOut : String

/-- State after `setup()`: all-ones buffer, `lastCheck = 0` (static
initializer), LED low (OUTPUT pins start low), nothing emitted. -/
def initState : EspState :=
  ⟨initBuffer, 0, false, ""⟩

/-- Text emitted by one evaluation cycle (lines 45-53):
`Serial.print("HUMAN,")` or `Serial.print("NO HUMAN,")` followed by
`Serial.println(co2ppm)`, modelled per the design as the decimal value and
a newline terminator. -/
def serialLine (present : Bool) (ppm : Int) : String :=
  (if present then "HUMAN," else "NO HUMAN,") ++ toString ppm ++ "\n"

/-- One call of `loop()` (lines 33-57) given the radar reading of this tick,
raw CO2 reading and clock value: insert the sample (guarding the array
write `samples[indexSample]`), compute the ppm value, and if the
evaluation period has elapsed run `checkBreathing`, drive the LED, emit
the serial line and reset `lastCheck`. Any out-of-bounds array access
yields `none`. The trailing `delay(sampleInterval)` only advances the
clock, which is an input here. -/
def loopStep (st : EspState) (radarVal co2Raw : Int) (now : Nat) : Option EspState :=
  if st.buffer.indexSample < st.buffer.samples.length then
    if evaluationDue now st.lastCheck (windowSize * sampleInterval) then
      match checkBreathing (insert st.buffer radarVal).samples with
      | some present =>
          some ⟨insert st.buffer radarVal, now, present,
                st.serialOut ++ serialLine present (mapCo2 co2Raw)⟩
      | none => none
    else
      some ⟨insert st.buffer radarVal, st.lastCheck, st.led, st.serialOut⟩
  else none

/-! ### Helper lemmas -/

/-- An all-equal nonempty list has no adjacent differing pair. -/
lemma adjDiffs_replicate : ∀ (n : Nat) (v : Int), adjDiffs (List.replicate (n + 1) v) = 0 := by
  intro n v
  induction n with
  | zero => simp [adjDiffs]
  | succ m ih =>
      have h2 : List.replicate (m + 2) v = v :: v :: List.replicate m v := by
        simp [List.replicate]
      have h1 : List.replicate (m + 1) v = v :: List.replicate m v := by
        simp [List.replicate]
      rw [h2, adjDiffs, ← h1, ih]
      simp

/-- The number of adjacent differing pairs is at most the number of
adjacent pairs. -/
lemma adjDiffs_le : ∀ (rest : List Int) (a : Int), adjDiffs (a :: rest) ≤ rest.length := by
  intro rest
  induction rest with
  | nil => intro a; simp [adjDiffs]
  | cons b l ih =>
      intro a
      rw [adjDiffs]
      have := ih b
      by_cases hab : a ≠ b <;> simp [hab] <;> omega

/-- Characterization of the scanning loop: given enough fuel it returns
the running total plus the adjacent-pair differences of the rest of the
array, seeded with the current `prev` value. In particular the `none`
branch (out-of-bounds read) is never taken. -/
lemma checkBreathingLoop_eq (s : List Int) :
    ∀ (fuel i : Nat) (prev : Int) (t : Nat), s.length ≤ fuel + i →
      checkBreathingLoop s fuel i prev t = some (t + adjDiffs (prev :: s.drop i)) := by
  intro fuel
  induction fuel with
  | zero =>
      intro i prev t h
      have hd : s.drop i = [] := List.drop_eq_nil_of_le (by omega)
      have hlt : ¬ i < s.length := by omega
      simp [checkBreathingLoop, hlt, hd, adjDiffs]
  | succ f ih =>
      intro i prev t h
      by_cases hi : i < s.length
      · have hget : s.get? i = some (s.get ⟨i, hi⟩) := List.get?_eq_get hi
        have hdrop : s.drop i = s.get ⟨i, hi⟩ :: s.drop (i + 1) := by
          rw [List.drop_eq_getElem_cons hi]
          simp [List.get_eq_getElem]
        rw [checkBreathingLoop, if_pos hi, hget]
        dsimp only
        rw [ih (i + 1) (s.get ⟨i, hi⟩) _ (by omega)]
        rw [hdrop, adjDiffs]
        by_cases hne : s.get ⟨i, hi⟩ ≠ prev
        · have : prev ≠ s.get ⟨i, hi⟩ := fun hEq => hne hEq.symm
          simp only [if_pos hne, if_pos this]
          congr 1
          omega
        · have : ¬ prev ≠ s.get ⟨i, hi⟩ := fun hEq => hne (fun hEq2 => hEq hEq2.symm)
          simp only [if_neg hne, if_neg this]
          congr 1
          omega
      · have hd : s.drop i = [] := List.drop_eq_nil_of_le (by omega)
        simp [checkBreathingLoop, hi, hd, adjDiffs]

/-- On a nonempty buffer, `countTransitions` succeeds and computes the
adjacent-pair difference count. -/
lemma countTransitions_cons (p : Int) (rest : List Int) :
    countTransitions (p :: rest) = some (adjDiffs (p :: rest)) := by
  have h0 : (p :: rest).get? 0 = some p := rfl
  rw [countTransitions, h0]
  dsimp only
  rw [checkBreathingLoop_eq (p :: rest) (p :: rest).length 1 p 0 (by simp)]
  simp

/-- Effect of a run of insertions that fits inside the remaining slots of
the window: the written segment is overwritten in place and the cursor
advances by the number of insertions, wrapping at the window boundary. -/
lemma foldl_insert_eq :
    ∀ (vs s : List Int) (k : Nat), s.length = windowSize →
      k < windowSize → k + vs.length ≤ windowSize →
      List.foldl Esp.insert ⟨s, k⟩ vs
        = ⟨s.take k ++ vs ++ s.drop (k + vs.length), (k + vs.length) % windowSize⟩ := by
  intro vs
  induction vs with
  | nil =>
      intro s k hs hk _
      simp [List.take_append_drop, Nat.mod_eq_of_lt hk]
  | cons v rest ih =>
      intro s k hs hk hle
      have hkl : k < s.length := by omega
      have hset : s.set k v = s.take k ++ v :: s.drop (k + 1) :=
        List.set_eq_take_cons_drop v hkl
      have hstep : List.foldl Esp.insert ⟨s, k⟩ (v :: rest)
          = List.foldl Esp.insert ⟨s.set k v, (k + 1) % windowSize⟩ rest := by
        rfl
      have hlenset : (s.set k v).length = windowSize := by simp [hs]
      have htk : (s.take k).length = k := by
        rw [List.length_take]
        omega
      by_cases h1 : k + 1 < windowSize
      · have hmod : (k + 1) % windowSize = k + 1 := Nat.mod_eq_of_lt h1
        rw [hstep, hmod, ih (s.set k v) (k + 1) hlenset h1 (by simp at hle ⊢; omega)]
        have htake : (s.set k v).take (k + 1) = s.take k ++ [v] := by
          rw [hset]
          have : k + 1 = (s.take k).length + 1 := by omega
          rw [this, List.take_append]
          simp
        have hdrop : (s.set k v).drop (k + 1 + rest.length)
            = s.drop (k + (rest.length + 1)) := by
          rw [hset]
          have : k + 1 + rest.length = (s.take k).length + (1 + rest.length) := by omega
          rw [this, List.drop_append]
          have h2 : (1 + rest.length) = rest.length + 1 := by omega
          rw [h2]
          simp [List.drop_drop]
          congr 1
          omega
        rw [htake, hdrop]
        have hidx : (k + 1 + rest.length) % windowSize
            = (k + (v :: rest).length) % windowSize := by
          have : k + 1 + rest.length = k + (v :: rest).length := by simp; omega
          rw [this]
        rw [hidx]
        have hlist : s.take k ++ [v] ++ rest ++ s.drop (k + (rest.length + 1))
            = s.take k ++ (v :: rest) ++ s.drop (k + (v :: rest).length) := by
          simp [List.append_assoc]
        rw [hlist]
      · have hk1 : k + 1 = windowSize := by omega
        have hrest : rest = [] := by
          have : rest.length = 0 := by simp at hle; omega
          exact List.length_eq_zero.mp this
        subst hrest
        rw [hstep]
        simp only [List.foldl_nil]
        have : k + ([v] : List Int).length = k + 1 := by simp
        rw [this, hset]
        simp

/-- Truncating division by the positive constant 4095 is monotone in the
dividend. -/
lemma tdiv_neg_of_neg (a : Int) : Int.tdiv a 4095 = -Int.tdiv (-a) 4095 := by
  have h : a = -(-a) := by omega
  conv =>
    lhs
    rw [h]
  rw [Int.neg_tdiv]

lemma tdiv_4095_mono : ∀ {a b : Int}, a ≤ b → Int.tdiv a 4095 ≤ Int.tdiv b 4095 := by
  intro a b h
  rcases le_or_lt 0 a with ha | ha
  · have hb : (0 : Int) ≤ b := le_trans ha h
    rw [Int.tdiv_eq_ediv ha (by norm_num), Int.tdiv_eq_ediv hb (by norm_num)]
    exact Int.ediv_le_ediv (by norm_num) h
  · rcases le_or_lt 0 b with hb | hb
    · have h1 : Int.tdiv a 4095 ≤ 0 := by
        rw [tdiv_neg_of_neg a]
        have := Int.tdiv_nonneg (a := -a) (b := 4095) (by omega) (by norm_num)
        omega
      have h2 : (0 : Int) ≤ Int.tdiv b 4095 := Int.tdiv_nonneg hb (by norm_num)
      omega
    · have hmono : Int.tdiv (-b) 4095 ≤ Int.tdiv (-a) 4095 := by
        rw [Int.tdiv_eq_ediv (by omega) (by norm_num),
          Int.tdiv_eq_ediv (by omega) (by norm_num)]
        exact Int.ediv_le_ediv (by norm_num) (by omega)
      rw [tdiv_neg_of_neg a, tdiv_neg_of_neg b]
      omega

/-- Arduino `map(r, 0, 4095, 400, 2000)` written with the literals folded. -/
lemma mapCo2_eq (r : Int) : mapCo2 r = Int.tdiv (r * 1600) 4095 + 400 := by
  show Int.tdiv ((r - 0) * (2000 - 400)) (4095 - 0) + 400 = _
  norm_num

/-- Transition counts are bounded by the number of adjacent pairs in the
buffer. -/
lemma countTransitions_le_aux (s : List Int) (t : Nat) (hne : s ≠ [])
    (heq : countTransitions s = some t) : t ≤ s.length - 1 := by
  obtain ⟨p, rest, rfl⟩ := List.exists_cons_of_ne_nil hne
  rw [countTransitions_cons] at heq
  have ht : t = adjDiffs (p :: rest) := by
    exact (Option.some.inj heq).symm
  have := adjDiffs_le rest p
  simp only [List.length_cons]
  omega

/-- An all-equal nonempty buffer has transition count 0. -/
lemma countTransitions_replicate (n : Nat) (v : Int) :
    countTransitions (List.replicate (n + 1) v) = some 0 := by
  have h : List.replicate (n + 1) v = v :: List.replicate n v := by
    simp [List.replicate]
  rw [h, countTransitions_cons, ← h, adjDiffs_replicate]

/-! ### Claim theorems -/

/-- C1: `countTransitions` scans the stored sample sequence from position 1
to the end in array order, incrementing a counter exactly when an element
differs from its immediate predecessor (so it succeeds and returns the
adjacent-pair difference count `adjDiffs`); for buffer contents
`[1,1,0,0,1,1,0,1]` it returns 4, and for any all-equal buffer of positive
capacity it returns 0. -/
theorem countTransitions_counts_adjacent_diffs :
    (∀ (p : Int) (rest : List Int),
        countTransitions (p :: rest) = some (adjDiffs (p :: rest)))
    ∧ countTransitions [1, 1, 0, 0, 1, 1, 0, 1] = some 4
    ∧ (∀ (n : Nat) (v : Int), countTransitions (List.replicate (n + 1) v) = some 0) := by
  exact ⟨countTransitions_cons, by decide, countTransitions_replicate⟩

/-- C2: the presence verdict `isPresent t` is true exactly when
`3 ≤ t ≤ 10`, both bounds inclusive; in particular `isPresent 2 = false`,
`isPresent 3 = true`, `isPresent 10 = true`, `isPresent 11 = false`. -/
theorem isPresent_iff_three_to_ten :
    (∀ t : Nat, isPresent t = true ↔ (3 ≤ t ∧ t ≤ 10))
    ∧ isPresent 2 = false ∧ isPresent 3 = true
    ∧ isPresent 10 = true ∧ isPresent 11 = false := by
  refine ⟨?_, by decide, by decide, by decide, by decide⟩
  intro t
  simp [isPresent]

/-- C3: in the no-wraparound regime of the 32-bit millisecond clock
(`last ≤ now < 2^32`, period below `2^32`), the evaluation gate fires
exactly when `now - last` strictly exceeds the period, so equality of the
elapsed time with the period is not yet due; concretely, with period 10000
and last evaluation at 1000 the gate is false at `now = 11000` and true at
`now = 11001`. -/
theorem evaluationDue_strict_gt :
    (∀ now last period : Nat, last ≤ now → now < u32 → period < u32 →
        (evaluationDue now last period = true ↔ period < now - last))
    ∧ evaluationDue 11000 1000 10000 = false
    ∧ evaluationDue 11001 1000 10000 = true := by
  refine ⟨?_, by decide, by decide⟩
  intro now last period h1 h2 h3
  have hu : u32 = 4294967296 := by norm_num [u32]
  simp only [evaluationDue, u32sub, hu, decide_eq_true_eq] at *
  omega

/-- C3 witness: the general gate characterization applied at the concrete
boundary input from the spec. -/
theorem evaluationDue_strict_gt_witness :
    evaluationDue 11001 1000 10000 = true ↔ 10000 < 11001 - 1000 :=
  evaluationDue_strict_gt.1 11001 1000 10000 (by decide) (by decide) (by decide)

/-- C4: the CO2 mapping equals `400 + rawAdcValue * 1600 / 4095` under C
integer (truncation toward zero) division, with no clamping outside
`[0, 4095]`; in particular `mapCo2 0 = 400`, `mapCo2 4095 = 2000` and
`mapCo2 2048 = 1200`. -/
theorem mapCo2_linear_formula :
    (∀ raw : Int, mapCo2 raw = 400 + Int.tdiv (raw * 1600) 4095)
    ∧ mapCo2 0 = 400 ∧ mapCo2 4095 = 2000 ∧ mapCo2 2048 = 1200 := by
  refine ⟨?_, by decide, by decide, by decide⟩
  intro raw
  rw [mapCo2_eq]
  omega

/-- C6: immediately after `setup()` the buffer holds exactly `windowSize`
entries, all equal to 1, `countTransitions` on it returns 0, and
`isPresent 0` is false. -/
theorem initial_state_no_presence :
    initBuffer.samples = List.replicate windowSize 1
    ∧ initBuffer.samples.length = windowSize
    ∧ countTransitions initBuffer.samples = some 0
    ∧ isPresent 0 = false := by
  refine ⟨rfl, by simp [initBuffer], ?_, by decide⟩
  show countTransitions (List.replicate windowSize 1) = some 0
  have h : windowSize = 99 + 1 := by norm_num [windowSize]
  rw [h]
  exact countTransitions_replicate 99 1

/-- C5: `insert` overwrites the slot at the current write cursor, advances
the cursor by 1 modulo the capacity, never changes the buffer length, and
after exactly `windowSize` insertions starting from the initial buffer
every original default entry has been overwritten: the buffer holds
exactly the inserted values (here the cursor-to-index mapping is the
identity, because the cursor starts at 0) and the cursor has wrapped back
to 0. -/
theorem insert_overwrite_law :
    (∀ (b : SampleBuffer) (v : Int),
        (Esp.insert b v).samples = b.samples.set b.indexSample v
        ∧ (Esp.insert b v).indexSample = (b.indexSample + 1) % windowSize
        ∧ (Esp.insert b v).samples.length = b.samples.length)
    ∧ (∀ vs : List Int, vs.length = windowSize →
        List.foldl Esp.insert initBuffer vs = ⟨vs, 0⟩) := by
  constructor
  · intro b v
    exact ⟨rfl, rfl, by simp [Esp.insert]⟩
  · intro vs hvs
    have h := foldl_insert_eq vs (List.replicate windowSize 1) 0
      (by simp) (by norm_num [windowSize]) (by omega)
    rw [show initBuffer = ⟨List.replicate windowSize 1, 0⟩ from rfl, h]
    congr 1
    · rw [List.take_zero, List.nil_append, Nat.zero_add, hvs,
        List.drop_eq_nil_of_le (by simp), List.append_nil]
    · rw [Nat.zero_add, hvs, Nat.mod_self]

/-- C5 witness: one hundred insertions of 0 into the fresh all-ones buffer
leave exactly those hundred zeros and the cursor back at slot 0. -/
theorem insert_overwrite_law_witness :
    List.foldl Esp.insert initBuffer (List.replicate windowSize 0)
      = ⟨List.replicate windowSize 0, 0⟩ :=
  insert_overwrite_law.2 (List.replicate windowSize 0) (by simp)

/-- C7: a loop iteration whose state satisfies the buffer invariant emits,
exactly when the evaluation gate fires, the token `"HUMAN,"` (presence) or
`"NO HUMAN,"` (absence) followed immediately by the decimal CO2 ppm value
and a newline — and emits nothing otherwise. -/
theorem loopStep_serial_format :
    (∀ (b : Bool) (ppm : Int), serialLine b ppm
        = (if b then "HUMAN," else "NO HUMAN,") ++ toString ppm ++ "\n")
    ∧ (∀ (st : EspState) (radarVal co2Raw : Int) (now : Nat),
        st.buffer.samples.length = windowSize →
        st.buffer.indexSample < windowSize →
        (evaluationDue now st.lastCheck (windowSize * sampleInterval) = true →
          ∃ (st' : EspState) (t : Nat),
            loopStep st radarVal co2Raw now = some st'
            ∧ countTransitions ((Esp.insert st.buffer radarVal).samples) = some t
            ∧ st'.serialOut = st.serialOut ++ serialLine (isPresent t) (mapCo2 co2Raw))
        ∧ (evaluationDue now st.lastCheck (windowSize * sampleInterval) = false →
          ∃ st' : EspState,
            loopStep st radarVal co2Raw now = some st'
            ∧ st'.serialOut = st.serialOut)) := by
  refine ⟨fun _ _ => rfl, ?_⟩
  intro st radarVal co2Raw now hlen hidx
  have hguard : st.buffer.indexSample < st.buffer.samples.length := by
    rw [hlen]; exact hidx
  have hbuflen : (Esp.insert st.buffer radarVal).samples.length = windowSize := by
    simp [Esp.insert, hlen]
  have hne : (Esp.insert st.buffer radarVal).samples ≠ [] := by
    intro hnil
    rw [hnil] at hbuflen
    norm_num [windowSize] at hbuflen
  obtain ⟨p, rest, hcons⟩ := List.exists_cons_of_ne_nil hne
  have hct : countTransitions (Esp.insert st.buffer radarVal).samples
      = some (adjDiffs (Esp.insert st.buffer radarVal).samples) := by
    rw [hcons]; exact countTransitions_cons p rest
  have hcb : checkBreathing (Esp.insert st.buffer radarVal).samples
      = some (isPresent (adjDiffs (Esp.insert st.buffer radarVal).samples)) := by
    rw [checkBreathing, hct]
    rfl
  constructor
  · intro hdue
    refine ⟨⟨Esp.insert st.buffer radarVal, now,
        isPresent (adjDiffs (Esp.insert st.buffer radarVal).samples),
        st.serialOut ++ serialLine
          (isPresent (adjDiffs (Esp.insert st.buffer radarVal).samples))
          (mapCo2 co2Raw)⟩,
      adjDiffs (Esp.insert st.buffer radarVal).samples, ?_, hct, rfl⟩
    rw [loopStep, if_pos hguard, hdue, if_pos rfl, hcb]
  · intro hnot
    refine ⟨⟨Esp.insert st.buffer radarVal, st.lastCheck, st.led, st.serialOut⟩, ?_, rfl⟩
    rw [loopStep, if_pos hguard, hnot]
    simp

/-- C7 witness: the format characterization applied to the freshly
initialized state at a tick where the evaluation period has elapsed. -/
theorem loopStep_serial_format_witness :
    ∃ (st' : EspState) (t : Nat),
      loopStep initState 0 500 20000 = some st'
      ∧ countTransitions ((Esp.insert initState.buffer 0).samples) = some t
      ∧ st'.serialOut = initState.serialOut ++ serialLine (isPresent t) (mapCo2 500) :=
  (loopStep_serial_format.2 initState 0 500 20000 (by decide) (by decide)).1 (by decide)

/-- C8: the buffer invariant `indexSample < windowSize` (with the array
length fixed at `windowSize`) is preserved by every loop iteration, and
under it every array access of the iteration — the sample write and all
reads of the transition scan — is in bounds, so `loopStep` never reaches
its out-of-bounds `none` branches. -/
theorem loopStep_preserves_bounds :
    ∀ (st : EspState) (radarVal co2Raw : Int) (now : Nat),
      st.buffer.samples.length = windowSize →
      st.buffer.indexSample < windowSize →
      ∃ st' : EspState,
        loopStep st radarVal co2Raw now = some st'
        ∧ st'.buffer.samples.length = windowSize
        ∧ st'.buffer.indexSample < windowSize := by
  intro st radarVal co2Raw now hlen hidx
  have hguard : st.buffer.indexSample < st.buffer.samples.length := by
    rw [hlen]; exact hidx
  have hbuflen : (Esp.insert st.buffer radarVal).samples.length = windowSize := by
    simp [Esp.insert, hlen]
  have hbufidx : (Esp.insert st.buffer radarVal).indexSample < windowSize :=
    Nat.mod_lt _ (by norm_num [windowSize])
  have hne : (Esp.insert st.buffer radarVal).samples ≠ [] := by
    intro hnil
    rw [hnil] at hbuflen
    norm_num [windowSize] at hbuflen
  obtain ⟨p, rest, hcons⟩ := List.exists_cons_of_ne_nil hne
  have hcb : checkBreathing (Esp.insert st.buffer radarVal).samples
      = some (isPresent (adjDiffs (Esp.insert st.buffer radarVal).samples)) := by
    rw [checkBreathing, hcons, countTransitions_cons, ← hcons]
    rfl
  by_cases hdue : evaluationDue now st.lastCheck (windowSize * sampleInterval) = true
  · have heq : loopStep st radarVal co2Raw now
        = some ⟨Esp.insert st.buffer radarVal, now,
                isPresent (adjDiffs (Esp.insert st.buffer radarVal).samples),
                st.serialOut ++ serialLine
                  (isPresent (adjDiffs (Esp.insert st.buffer radarVal).samples))
                  (mapCo2 co2Raw)⟩ := by
      rw [loopStep, if_pos hguard, hdue, if_pos rfl, hcb]
    exact ⟨_, heq, hbuflen, hbufidx⟩
  · rw [Bool.not_eq_true] at hdue
    have heq : loopStep st radarVal co2Raw now
        = some ⟨Esp.insert st.buffer radarVal, st.lastCheck, st.led, st.serialOut⟩ := by
      rw [loopStep, if_pos hguard, hdue]
      simp
    exact ⟨_, heq, hbuflen, hbufidx⟩

/-- C8 witness: the preservation theorem applied to the initial state. -/
theorem loopStep_preserves_bounds_witness :
    ∃ st' : EspState,
      loopStep initState 1 0 5 = some st'
      ∧ st'.buffer.samples.length = windowSize
      ∧ st'.buffer.indexSample < windowSize :=
  loopStep_preserves_bounds initState 1 0 5 (by decide) (by decide)

/-- C9: on any nonempty buffer the transition count is at most the buffer
length minus one; with the fixed window size of 100 it never exceeds 99. -/
theorem countTransitions_bounded :
    (∀ (s : List Int) (t : Nat), s ≠ [] → countTransitions s = some t →
        t ≤ s.length - 1)
    ∧ (∀ (s : List Int) (t : Nat), s.length = windowSize →
        countTransitions s = some t → t ≤ 99) := by
  refine ⟨countTransitions_le_aux, ?_⟩
  intro s t hlen heq
  have hne : s ≠ [] := by
    intro hnil
    rw [hnil] at hlen
    norm_num [windowSize] at hlen
  have := countTransitions_le_aux s t hne heq
  rw [hlen] at this
  norm_num [windowSize] at this
  exact this

/-- C9 witness: the bound applied to a concrete three-sample buffer with
two transitions. -/
theorem countTransitions_bounded_witness :
    (2 : Nat) ≤ ([1, 0, 1] : List Int).length - 1 :=
  countTransitions_bounded.1 [1, 0, 1] 2 (by decide) (by decide)

/-- C10: the CO2 mapping is monotone non-decreasing over all integer
inputs, and on the ADC domain `[0, 4095]` its value lies in `[400, 2000]`. -/
theorem mapCo2_monotone_bounded :
    (∀ a b : Int, a ≤ b → mapCo2 a ≤ mapCo2 b)
    ∧ (∀ r : Int, 0 ≤ r → r ≤ 4095 → 400 ≤ mapCo2 r ∧ mapCo2 r ≤ 2000) := by
  constructor
  · intro a b h
    rw [mapCo2_eq, mapCo2_eq]
    have h16 : a * 1600 ≤ b * 1600 :=
      mul_le_mul_of_nonneg_right h (by norm_num)
    have := tdiv_4095_mono h16
    omega
  · intro r h0 h1
    rw [mapCo2_eq]
    have hlow : (0 : Int) ≤ Int.tdiv (r * 1600) 4095 :=
      Int.tdiv_nonneg (mul_nonneg h0 (by norm_num)) (by norm_num)
    have hle : r * 1600 ≤ 4095 * 1600 :=
      mul_le_mul_of_nonneg_right h1 (by norm_num)
    have hhi := tdiv_4095_mono hle
    have h4 : Int.tdiv ((4095 : Int) * 1600) 4095 = 1600 := by decide
    omega

/-- C10 witness: monotonicity and the range bound at concrete points. -/
theorem mapCo2_monotone_bounded_witness :
    mapCo2 100 ≤ mapCo2 3000 ∧ (400 ≤ mapCo2 3000 ∧ mapCo2 3000 ≤ 2000) :=
  ⟨mapCo2_monotone_bounded.1 100 3000 (by decide),
   mapCo2_monotone_bounded.2 3000 (by decide) (by decide)⟩

end Esp
